import Mathlib

/-!
Verification development for the `memory_for_llm` repository.

We shallowly embed the core of the memory layer:
* `src/storage/vector/faiss_store.py` (`FAISSVectorStore`) as `FaissState` with
  `vsInsert` / `vsUpdate` / `vsDelete` / `faissSearch`;
* `src/storage/metadata/mongodb.py` (the metadata backend) as `MongoState`;
* `src/core/memory/memory_operations.py` (`MemoryOperationExecutor`) as
  `validateOps` / `executeOperation` / `executeAdd` / `executeUpdate` / `executeDelete`;
* `src/core/memory/memory_store.py` (`MemoryStore.create_memory`) as the
  stamping / filter construction / operation-execution loop;
* `src/core/api/retrieval_api.py` (`RetrievalAPI.retrieve`) as `retrieveModel`.

Numeric values (embedding coordinates, scores, confidences) are modelled as
rationals; `numpy`'s square root (used by `np.linalg.norm` in
`_normalize_vector`) is an explicit function parameter `sqrtFn` of the store,
which theorems constrain on the values where they need it.  JSON values in
vector payloads and search filters are modelled by `JVal`.
-/

/-- A JSON scalar value as it occurs in vector-store payloads and filters:
`null`, a string, or a number. -/
inductive JVal where
  | null : JVal
  | str : String → JVal
  | num : ℚ → JVal
deriving DecidableEq, Repr

/-- A Python `dict` with string keys, modelled as an association list with
unique keys (lookups take the first binding). -/
abbrev Dict (α : Type) := List (String × α)

/-- `d[k] = v` for a Python dict: replaces any previous binding of `k`. -/
def dictSet {α : Type} (k : String) (v : α) (d : Dict α) : Dict α :=
  (k, v) :: d.filter (fun p => p.1 != k)

/-- `del d[k]` for a Python dict. -/
def dictDel {α : Type} (k : String) (d : Dict α) : Dict α :=
  d.filter (fun p => p.1 != k)

/-- `base.update(new)` for Python dicts: every binding of `new` is written
into `base`. -/
def dictMerge {α : Type} (base new : Dict α) : Dict α :=
  new.foldl (fun acc kv => dictSet kv.1 kv.2 acc) base

/-- Vector-store payload: the JSON object stored alongside a vector. -/
abbrev Payload := Dict JVal

/-- Slot-keyed dict (`self._index_to_id`), keys are FAISS slot numbers. -/
abbrev SlotDict := List (Nat × String)

/-- `d[k] = v` on the slot-keyed dict. -/
def slotSet (k : Nat) (v : String) (d : SlotDict) : SlotDict :=
  (k, v) :: d.filter (fun p => p.1 != k)

/-- `del d[k]` on the slot-keyed dict. -/
def slotDel (k : Nat) (d : SlotDict) : SlotDict :=
  d.filter (fun p => p.1 != k)

/-! ### Stable descending insertion sort

Python's `list.sort(key=…, reverse=True)` is a stable sort: elements with
equal keys keep their original relative order.  `insSortDesc` reproduces
exactly that behaviour: an element is inserted in front of the first element
whose key is `≤` its own, so earlier elements win ties. -/

/-- Insert `x` into `l` in front of the first element whose key is `≤ key x`. -/
def insertDesc {α : Type} (key : α → ℚ) (x : α) : List α → List α
  | [] => [x]
  | y :: ys => if key y ≤ key x then x :: y :: ys else y :: insertDesc key x ys

/-- Stable sort by `key`, descending (model of `sort(key=…, reverse=True)`). -/
def insSortDesc {α : Type} (key : α → ℚ) : List α → List α
  | [] => []
  | x :: xs => insertDesc key x (insSortDesc key xs)

theorem mem_insertDesc {α : Type} (key : α → ℚ) (x : α) (l : List α) (a : α) :
    a ∈ insertDesc key x l ↔ a = x ∨ a ∈ l := by
  induction l with
  | nil => simp [insertDesc]
  | cons y ys ih =>
    by_cases h : key y ≤ key x
    · simp [insertDesc, h]
    · simp only [insertDesc, if_neg h, List.mem_cons, ih]
      tauto

theorem mem_insSortDesc {α : Type} (key : α → ℚ) (l : List α) (a : α) :
    a ∈ insSortDesc key l ↔ a ∈ l := by
  induction l with
  | nil => simp [insSortDesc]
  | cons x xs ih => simp [insSortDesc, mem_insertDesc, ih]

theorem pairwise_insertDesc {α : Type} (key : α → ℚ) (x : α) (l : List α)
    (h : l.Pairwise (fun a b => key b ≤ key a)) :
    (insertDesc key x l).Pairwise (fun a b => key b ≤ key a) := by
  induction l with
  | nil => simp [insertDesc]
  | cons y ys ih =>
    rcases List.pairwise_cons.1 h with ⟨hy, hys⟩
    by_cases hxy : key y ≤ key x
    · rw [insertDesc, if_pos hxy]
      refine List.pairwise_cons.2 ⟨?_, h⟩
      intro b hb
      rcases List.mem_cons.1 hb with rfl | hb
      · exact hxy
      · exact le_trans (hy b hb) hxy
    · rw [insertDesc, if_neg hxy]
      refine List.pairwise_cons.2 ⟨?_, ih hys⟩
      intro b hb
      rcases (mem_insertDesc key x ys b).1 hb with rfl | hb
      · exact le_of_not_le hxy
      · exact hy b hb

theorem pairwise_insSortDesc {α : Type} (key : α → ℚ) (l : List α) :
    (insSortDesc key l).Pairwise (fun a b => key b ≤ key a) := by
  induction l with
  | nil => simp [insSortDesc]
  | cons x xs ih => exact pairwise_insertDesc key x _ ih

theorem filter_insertDesc {α : Type} (key : α → ℚ) (x : α) (l : List α) (c : ℚ) :
    (insertDesc key x l).filter (fun a => key a == c) =
      if key x = c then x :: l.filter (fun a => key a == c)
      else l.filter (fun a => key a == c) := by
  induction l with
  | nil =>
    by_cases h : key x = c
    · rw [if_pos h]; simp [insertDesc, List.filter_cons, h]
    · rw [if_neg h]; simp [insertDesc, List.filter_cons, h]
  | cons y ys ih =>
    by_cases hxy : key y ≤ key x
    · rw [insertDesc, if_pos hxy]
      by_cases h : key x = c
      · rw [if_pos h]; simp [List.filter_cons, h]
      · rw [if_neg h]; simp [List.filter_cons, h]
    · rw [insertDesc, if_neg hxy]
      by_cases h : key x = c
      · rw [if_pos h]
        by_cases hy : key y = c
        · exact absurd (le_of_eq (by rw [hy, h])) hxy
        · simp only [List.filter_cons, ih, if_pos h]
          simp [hy, h]
      · rw [if_neg h]
        by_cases hy : key y = c <;>
          simp [List.filter_cons, ih, if_neg h, hy]

/-- Stability of the sort: the elements carrying any fixed key value appear in
the sorted output in exactly their input order. -/
theorem filter_insSortDesc {α : Type} (key : α → ℚ) (l : List α) (c : ℚ) :
    (insSortDesc key l).filter (fun a => key a == c) =
      l.filter (fun a => key a == c) := by
  induction l with
  | nil => simp [insSortDesc]
  | cons x xs ih =>
    by_cases h : key x = c <;>
      simp [insSortDesc, filter_insertDesc, h, List.filter_cons, ih]

/-! ### Vector arithmetic over ℚ -/

/-- Inner product of two vectors (zip-truncated, as `numpy` would only be
called on equal-length vectors). -/
def ipQ (u v : List ℚ) : ℚ := (List.zipWith (· * ·) u v).sum

/-- Squared L2 norm of a vector. -/
def normSq (v : List ℚ) : ℚ := (v.map (fun a => a * a)).sum

/-- Squared L2 distance between two vectors (FAISS `IndexFlatL2` reports
squared distances). -/
def sqDist (u v : List ℚ) : ℚ := (List.zipWith (fun a b => (a - b) * (a - b)) u v).sum

theorem normSq_nonneg (v : List ℚ) : 0 ≤ normSq v := by
  induction v with
  | nil => simp [normSq]
  | cons a l ih =>
    simp only [normSq, List.map_cons, List.sum_cons] at *
    nlinarith [mul_self_nonneg a]

/-- `2 * r ≤ x + y` whenever `r ^ 2 ≤ x * y` and `x, y ≥ 0`. -/
theorem two_mul_le_add_of_sq_le_mul {x y r : ℚ} (hx : 0 ≤ x) (hy : 0 ≤ y)
    (h : r ^ 2 ≤ x * y) : 2 * r ≤ x + y := by
  nlinarith [sq_nonneg (x - y), sq_nonneg (x + y), sq_nonneg (x + y - 2 * r),
    sq_nonneg (x + y + 2 * r)]

/-- Cauchy–Schwarz for lists over ℚ. -/
theorem ipQ_sq_le (u v : List ℚ) : (ipQ u v) ^ 2 ≤ normSq u * normSq v := by
  induction u generalizing v with
  | nil => simp [ipQ, normSq]
  | cons a u' ih =>
    cases v with
    | nil =>
      simp only [ipQ, List.zipWith_nil_right, List.sum_nil, normSq, List.map_nil]
      nlinarith [normSq_nonneg (a :: u')]
    | cons b v' =>
      have hA : 0 ≤ normSq u' := normSq_nonneg u'
      have hB : 0 ≤ normSq v' := normSq_nonneg v'
      have hS : (ipQ u' v') ^ 2 ≤ normSq u' * normSq v' := ih v'
      have key : 2 * (a * b * ipQ u' v') ≤ a * a * normSq v' + normSq u' * (b * b) := by
        apply two_mul_le_add_of_sq_le_mul
          (by nlinarith [mul_self_nonneg a, hB]) (by nlinarith [mul_self_nonneg b, hA])
        calc (a * b * ipQ u' v') ^ 2 = (a * a) * (b * b) * (ipQ u' v') ^ 2 := by ring
          _ ≤ (a * a) * (b * b) * (normSq u' * normSq v') := by
              apply mul_le_mul_of_nonneg_left hS
              nlinarith [mul_self_nonneg a, mul_self_nonneg b]
          _ = a * a * normSq v' * (normSq u' * (b * b)) := by ring
      simp only [ipQ, normSq, List.zipWith_cons_cons, List.map_cons,
        List.sum_cons] at *
      nlinarith [hS, mul_nonneg hA hB]

theorem normSq_map_div (v : List ℚ) (n : ℚ) :
    normSq (v.map (fun a => a / n)) = normSq v / (n * n) := by
  induction v with
  | nil => simp [normSq]
  | cons a l ih =>
    simp only [normSq, List.map_cons, List.sum_cons, List.map_map] at *
    rw [show ((fun a => a * a) ∘ fun a => a / n) = (fun a => (a / n) * (a / n)) from rfl] at ih ⊢
    rw [ih]
    ring

/-! ### FAISS vector store (`src/storage/vector/faiss_store.py`)

Disk persistence (`_save_index` / `_load_index`) is I/O and is not modelled;
every mutating method calls it last and it does not change the in-memory
state.  `np.linalg.norm`'s square root is the explicit `sqrtFn` field. -/

/-- `index_type` after `__init__` (`"COSINE"` keeps its own tag and sets
`_use_cosine`; unknown types fall back to an L2 index in `_create_index`). -/
inductive IndexType where
  | L2 : IndexType
  | IP : IndexType
  | COSINE : IndexType
deriving DecidableEq, Repr

/-- In-memory state of `FAISSVectorStore`.  `rawVectors` is the FAISS flat
index itself: one slot per ever-added vector, in slot order; deletion removes
a slot only from the two id maps, never from `rawVectors`. -/
structure FaissState where
  dimension : Nat
  indexType : IndexType
  sqrtFn : ℚ → ℚ
  rawVectors : List (List ℚ)
  payloads : Dict Payload
  idToIndex : Dict Nat
  indexToId : SlotDict
  nextIndex : Nat

/-- `self._use_cosine`. -/
def FaissState.useCosine (s : FaissState) : Bool := s.indexType == IndexType.COSINE

/-- `_normalize_vector`: divide by the L2 norm, returning zero vectors
unchanged. -/
def normalizeVec (sqrtFn : ℚ → ℚ) (v : List ℚ) : List ℚ :=
  let n := sqrtFn (normSq v)
  if n = 0 then v else v.map (fun a => a / n)

/-- A fresh `FAISSVectorStore` (nothing on disk). -/
def FaissState.empty (dim : Nat) (ty : IndexType) (sqrtFn : ℚ → ℚ) : FaissState :=
  ⟨dim, ty, sqrtFn, [], [], [], [], 0⟩

/-- `FAISSVectorStore.insert`. -/
def vsInsert (s : FaissState) (vector_id : String) (vector : List ℚ)
    (payload : Payload) : Bool × FaissState :=
  if (s.idToIndex.lookup vector_id).isSome then (false, s)
  else if vector.length ≠ s.dimension then (false, s)
  else
    let va := if s.useCosine then normalizeVec s.sqrtFn vector else vector
    let pos := s.nextIndex
    (true, { s with
      rawVectors := s.rawVectors ++ [va],
      idToIndex := dictSet vector_id pos s.idToIndex,
      indexToId := slotSet pos vector_id s.indexToId,
      payloads := dictSet vector_id payload s.payloads,
      nextIndex := s.nextIndex + 1 })

/-- `FAISSVectorStore.delete`: remove the id from both maps and drop the
payload; the raw vector stays in the index. -/
def vsDelete (s : FaissState) (vector_id : String) : Bool × FaissState :=
  match s.idToIndex.lookup vector_id with
  | none => (false, s)
  | some index_pos =>
    (true, { s with
      idToIndex := dictDel vector_id s.idToIndex,
      indexToId := slotDel index_pos s.indexToId,
      payloads := dictDel vector_id s.payloads })

/-- `FAISSVectorStore.update`: with a new vector this is delete + re-add at a
fresh slot; the payload is set (or the old one kept), then merged again. -/
def vsUpdate (s : FaissState) (vector_id : String) (vector : Option (List ℚ))
    (payload : Option Payload) : Bool × FaissState :=
  if (s.idToIndex.lookup vector_id).isNone then (false, s)
  else
    let afterVec : Option FaissState :=
      match vector with
      | none => some s
      | some v =>
        if v.length ≠ s.dimension then none
        else
          let old_payload := (s.payloads.lookup vector_id).getD []
          let s₁ := (vsDelete s vector_id).2
          let va := if s.useCosine then normalizeVec s.sqrtFn v else v
          let pos := s₁.nextIndex
          some { s₁ with
            rawVectors := s₁.rawVectors ++ [va],
            idToIndex := dictSet vector_id pos s₁.idToIndex,
            indexToId := slotSet pos vector_id s₁.indexToId,
            payloads := dictSet vector_id
              (match payload with | some p => p | none => old_payload) s₁.payloads,
            nextIndex := s₁.nextIndex + 1 }
    match afterVec with
    | none => (false, s)
    | some s₂ =>
      match payload with
      | none => (true, s₂)
      | some p =>
        match s₂.payloads.lookup vector_id with
        | some existing =>
          (true, { s₂ with payloads := dictSet vector_id (dictMerge existing p) s₂.payloads })
        | none =>
          (true, { s₂ with payloads := dictSet vector_id p s₂.payloads })

/-- `_matches_filter`: every filter key must be present in the payload with
an equal value. -/
def matchesFilter (payload : Payload) (filter : Payload) : Bool :=
  filter.all (fun kv => payload.lookup kv.1 == some kv.2)

/-- The per-result keep decision of `search`: a missing or empty filter keeps
everything; otherwise the `type` key is stripped before matching, and an
all-`type` filter also keeps everything. -/
def filterKeep (filter : Option Payload) (payload : Payload) : Bool :=
  match filter with
  | none => true
  | some flt =>
    if flt.isEmpty then true
    else
      let fwt := flt.filter (fun kv => kv.1 != "type")
      if fwt.isEmpty then true else matchesFilter payload fwt

/-- The raw FAISS flat-index lookup `self._index.search(q, k)`: every slot is
scored against the query (inner product for `IP`/`COSINE`, squared L2
distance for `L2`), the slots are ordered best-first (ties by slot order) and
the first `k` are returned as `(slot, raw distance)` pairs. -/
def rawTopK (s : FaissState) (qa : List ℚ) (k : Nat) : List (Nat × ℚ) :=
  let scored : List (Nat × ℚ) := (List.range s.rawVectors.length).map
    (fun i =>
      let v := s.rawVectors.getD i []
      match s.indexType with
      | IndexType.L2 => (i, sqDist qa v)
      | _ => (i, ipQ qa v))
  let ordered :=
    match s.indexType with
    | IndexType.L2 => insSortDesc (fun p : Nat × ℚ => -p.2) scored
    | _ => insSortDesc (fun p : Nat × ℚ => p.2) scored
  ordered.take k

/-- Exposed similarity score for one raw distance. -/
def scoreOf (ty : IndexType) (distance : ℚ) : ℚ :=
  match ty with
  | IndexType.L2 => 1 / (1 + distance)
  | IndexType.COSINE => max 0 distance
  | IndexType.IP => distance

/-- One search result. -/
structure SearchResult where
  vector_id : String
  score : ℚ
  payload : Payload
deriving DecidableEq, Repr

/-- The per-slot step of `search`'s result loop: resolve the slot to a live
id (deleted slots are skipped), fetch the payload, apply the filter and
compute the exposed score. -/
def searchHit (s : FaissState) (filter : Option Payload) (di : Nat × ℚ) :
    Option SearchResult :=
  match s.indexToId.lookup di.1 with
  | none => none
  | some vector_id =>
    let payload := (s.payloads.lookup vector_id).getD []
    if filterKeep filter payload then
      some ⟨vector_id, scoreOf s.indexType di.2, payload⟩
    else none

/-- `FAISSVectorStore.search`. -/
def faissSearch (s : FaissState) (query_vector : List ℚ) (top_k : Nat)
    (filter : Option Payload) : List SearchResult :=
  if query_vector.length ≠ s.dimension then []
  else
    let qa := if s.useCosine then normalizeVec s.sqrtFn query_vector else query_vector
    let k := min top_k s.rawVectors.length
    if k = 0 then []
    else
      let results := (rawTopK s qa k).filterMap (searchHit s filter)
      (insSortDesc (fun r => r.score) results).take top_k

theorem searchHit_eq_some {s : FaissState} {flt : Option Payload}
    {di : Nat × ℚ} {r : SearchResult} (h : searchHit s flt di = some r) :
    ∃ vid, s.indexToId.lookup di.1 = some vid ∧
      filterKeep flt ((s.payloads.lookup vid).getD []) = true ∧
      r = ⟨vid, scoreOf s.indexType di.2, (s.payloads.lookup vid).getD []⟩ := by
  unfold searchHit at h
  cases hlk : s.indexToId.lookup di.1 with
  | none => rw [hlk] at h; exact absurd h (by simp)
  | some vid =>
    rw [hlk] at h
    dsimp only at h
    by_cases hkeep : filterKeep flt ((s.payloads.lookup vid).getD []) = true
    · rw [if_pos hkeep] at h
      exact ⟨vid, rfl, hkeep, (Option.some_inj.1 h).symm⟩
    · rw [if_neg hkeep] at h
      exact absurd h (by simp)

theorem mem_faissSearch {s : FaissState} {q : List ℚ} {k : Nat}
    {flt : Option Payload} {r : SearchResult} (hr : r ∈ faissSearch s q k flt) :
    ∃ di ∈ rawTopK s (if s.useCosine then normalizeVec s.sqrtFn q else q)
        (min k s.rawVectors.length), searchHit s flt di = some r := by
  simp only [faissSearch] at hr
  split at hr
  · exact absurd hr (List.not_mem_nil r)
  · split at hr
    · exact absurd hr (List.not_mem_nil r)
    · have hr' := List.mem_of_mem_take hr
      rw [mem_insSortDesc] at hr'
      obtain ⟨di, hdi, hmap⟩ := List.mem_filterMap.1 hr'
      exact ⟨di, hdi, hmap⟩

/-! ### Memory model and MongoDB metadata backend

`core/models/Memory.py` (pydantic `Memory`): `memory_id`, `source`,
`content`, `type`, `timestamp` (modelled by its ISO string, which is what the
payload stores), `user_id`.  The cached `embedding` field is carried
separately as a `List ℚ` where needed; `conversation_id` is unused by the
code under verification. -/

structure Memory where
  memory_id : String
  source : String
  content : String
  type : String
  timestamp : String
  user_id : Option String
deriving DecidableEq, Repr

/-- The vector-store payload built for a memory in `_execute_add` /
`_execute_update` (with `memory_id` already set to its final value). -/
def payloadOf (m : Memory) : Payload :=
  [("memory_id", JVal.str m.memory_id),
   ("content", JVal.str m.content),
   ("type", JVal.str m.type),
   ("source", JVal.str m.source),
   ("timestamp", JVal.str m.timestamp),
   ("user_id", match m.user_id with | some u => JVal.str u | none => JVal.null)]

/-- `storage/metadata/mongodb.py`: the collection, in natural (insertion)
order. -/
structure MongoState where
  docs : List Memory
deriving DecidableEq, Repr

/-- Remove the first document matching a `memory_id` (`delete_one`). -/
def eraseFirstDoc (memory_id : String) : List Memory → List Memory
  | [] => []
  | d :: ds => if d.memory_id == memory_id then ds else d :: eraseFirstDoc memory_id ds

/-- Replace the first document matching `m.memory_id` by `m` (`update_one`
with `$set` over every field). -/
def replaceFirstDoc (m : Memory) : List Memory → List Memory
  | [] => []
  | d :: ds => if d.memory_id == m.memory_id then m :: ds else d :: replaceFirstDoc m ds

/-- `insert_memory_metadata`: `insert_one` appends a document.  (The Python
wrapper returns `False` only when the driver raises, which is outside the
model.) -/
def mongoInsert (m : Memory) (s : MongoState) : Bool × MongoState :=
  (true, ⟨s.docs ++ [m]⟩)

/-- `update_memory_metadata`: `update_one` on `memory_id`; `matched_count = 0`
means failure. -/
def mongoUpdate (m : Memory) (s : MongoState) : Bool × MongoState :=
  if s.docs.any (fun d => d.memory_id == m.memory_id) then
    (true, ⟨replaceFirstDoc m s.docs⟩)
  else (false, s)

/-- `delete_memory_metadata`: `delete_one` on `memory_id`; `deleted_count = 0`
means failure. -/
def mongoDelete (memory_id : String) (s : MongoState) : Bool × MongoState :=
  if s.docs.any (fun d => d.memory_id == memory_id) then
    (true, ⟨eraseFirstDoc memory_id s.docs⟩)
  else (false, s)

/-- `get_memories_by_ids`: `find({"memory_id": {"$in": ids}})` returns the
matching documents in the collection's natural order (no ordering by `ids`).
-/
def mongoGetByIds (ids : List String) (s : MongoState) : List Memory :=
  if ids.isEmpty then [] else s.docs.filter (fun d => ids.contains d.memory_id)

/-- Is there a row with this `memory_id`? -/
def rowExists (s : MongoState) (memory_id : String) : Bool :=
  s.docs.any (fun d => d.memory_id == memory_id)

/-! ### Memory operations (`src/core/memory/memory_operations.py`) -/

/-- One element of the reconciler's `operations` array, after JSON decoding.
Per the response schema, `target_memory_id` is a string or `null` and
`confidence` a number; the field-presence checks of
`determine_operations_batch` are JSON-structural and outside this typed
model. -/
structure MemOp where
  candidate_id : String
  operation : String
  target_memory_id : Option String
  confidence : ℚ
deriving DecidableEq, Repr

/-- The per-element validation loop of `determine_operations_batch`
(lines 83–98): an unknown `operation` constant raises; an `UPDATE`/`DELETE`
element with a null `target_memory_id` is only logged and is appended to the
result unchanged — there is no downgrade to NOOP and no neighbor-set check. -/
def validateOps : List MemOp → Except String (List MemOp)
  | [] => Except.ok []
  | op :: rest =>
    if op.operation ≠ "ADD" ∧ op.operation ≠ "UPDATE" ∧
        op.operation ≠ "DELETE" ∧ op.operation ≠ "NOOP" then
      Except.error ("Invalid operation: " ++ op.operation)
    else
      match validateOps rest with
      | Except.error e => Except.error e
      | Except.ok ops => Except.ok (op :: ops)

/-- Python truthiness of the decoded `target_memory_id` (`None` and `""` are
falsy). -/
def truthyTarget : Option String → Bool
  | none => false
  | some t => t != ""

/-- `_execute_add`: metadata row first, vector second; if the vector insert
fails, the row is deleted again (best effort) and the op fails. -/
def executeAdd (memory : Memory) (embedding : List ℚ) (ms : MongoState)
    (vs : FaissState) : Bool × MongoState × FaissState :=
  let payload := payloadOf memory
  let r₁ := mongoInsert memory ms
  if !r₁.1 then (false, r₁.2, vs)
  else
    let r₂ := vsInsert vs memory.memory_id embedding payload
    if !r₂.1 then
      let r₃ := mongoDelete memory.memory_id r₁.2
      (false, r₃.2, r₂.2)
    else (true, r₁.2, r₂.2)

/-- `_execute_update`: the candidate's `memory_id` is overwritten with the
target id (a mutation of the candidate object, hence returned), then the
metadata row and the vector are updated in that order. -/
def executeUpdate (new_memory : Memory) (new_embedding : List ℚ)
    (target_memory_id : String) (ms : MongoState) (vs : FaissState) :
    Bool × MongoState × FaissState × Memory :=
  let m := { new_memory with memory_id := target_memory_id }
  let payload := payloadOf m
  let r₁ := mongoUpdate m ms
  if !r₁.1 then (false, r₁.2, vs, m)
  else
    let r₂ := vsUpdate vs target_memory_id (some new_embedding) (some payload)
    (r₂.1, r₁.2, r₂.2, m)

/-- `_execute_delete`: both stores are attempted; success requires both. -/
def executeDelete (target_memory_id : String) (ms : MongoState)
    (vs : FaissState) : Bool × MongoState × FaissState :=
  let r₁ := mongoDelete target_memory_id ms
  let r₂ := vsDelete vs target_memory_id
  (r₁.1 && r₂.1, r₁.2, r₂.2)

/-- `execute_operation`: dispatch on the operation type; `UPDATE`/`DELETE`
with a falsy target fail immediately.  The possibly-mutated candidate object
is returned last. -/
def executeOperation (op : MemOp) (candidate_memory : Memory)
    (embedding : List ℚ) (ms : MongoState) (vs : FaissState) :
    Bool × MongoState × FaissState × Memory :=
  if op.operation == "ADD" then
    let r := executeAdd candidate_memory embedding ms vs
    (r.1, r.2.1, r.2.2, candidate_memory)
  else if op.operation == "UPDATE" then
    if !truthyTarget op.target_memory_id then (false, ms, vs, candidate_memory)
    else
      executeUpdate candidate_memory embedding (op.target_memory_id.getD "") ms vs
  else if op.operation == "DELETE" then
    if !truthyTarget op.target_memory_id then (false, ms, vs, candidate_memory)
    else
      let r := executeDelete (op.target_memory_id.getD "") ms vs
      (r.1, r.2.1, r.2.2, candidate_memory)
  else if op.operation == "NOOP" then (true, ms, vs, candidate_memory)
  else (false, ms, vs, candidate_memory)

/-! ### Write pipeline (`src/core/memory/memory_store.py`) -/

/-- A dynamically-typed Python value as passed to `extract_memory`: either a
message string or the recent-turn history (a list of role/text dicts,
modelled as pairs). -/
inductive PyVal where
  | str : String → PyVal
  | turns : List (String × String) → PyVal
deriving DecidableEq, Repr

/-- The actual parameter binding of one call to
`MemoryExtract.extract_memory(self, user_message, assistant_message,
recent_messages=None, memory_type="both")`: which value each formal
parameter receives. -/
structure ExtractCall where
  user_message : PyVal
  assistant_message : PyVal
  recent_messages : PyVal
  memory_type : String
deriving DecidableEq, Repr

/-- The binding produced by `MemoryStore.create_memory` (lines 99–103), which
passes `(recent_messages, user_message, assistant_message)` positionally:
the first positional slot is `user_message`, the second
`assistant_message`, the third `recent_messages`. -/
def createMemoryExtractCall (recent_messages : List (String × String))
    (user_message assistant_message : String) : ExtractCall :=
  { user_message := PyVal.turns recent_messages,
    assistant_message := PyVal.str user_message,
    recent_messages := PyVal.str assistant_message,
    memory_type := "both" }

/-- The binding demanded by the extractor contract (the `extract_memory`
signature and docstring, and spec §4.5: Input `(recent_turns, user_message,
assistant_message, mode)`): each argument goes to its namesake parameter. -/
def contractExtractCall (recent_messages : List (String × String))
    (user_message assistant_message : String) : ExtractCall :=
  { user_message := PyVal.str user_message,
    assistant_message := PyVal.str assistant_message,
    recent_messages := PyVal.turns recent_messages,
    memory_type := "both" }

/-- `create_memory` step 2 (lines 112–115): candidates are stamped with
`user_id` whenever it `is not None`. -/
def stampCandidates (candidate_memories : List Memory)
    (user_id : Option String) : List Memory :=
  match user_id with
  | none => candidate_memories
  | some u => candidate_memories.map (fun m => { m with user_id := some u })

/-- `create_memory` step 3 (line 137): `{"user_id": user_id} if user_id else
None` — the filter is built only when `user_id` is truthy (not `None`, not
the empty string). -/
def searchFilterOf (user_id : Option String) : Option Payload :=
  match user_id with
  | none => none
  | some u => if u = "" then none else some [("user_id", JVal.str u)]

/-- `_parallel_vector_search`: one search per embedding, all with the same
`top_k` and filter; results gathered in candidate order. -/
def parallelVectorSearch (vs : FaissState) (embeddings : List (List ℚ))
    (top_k : Nat) (filter : Option Payload) : List (List SearchResult) :=
  embeddings.map (fun e => faissSearch vs e top_k filter)

/-- State threaded through `create_memory`'s step-6 loop: the two stores, the
candidate map (whose `Memory` objects are mutated by UPDATE executions), and
the accumulated `stored_memories`. -/
structure LoopState where
  ms : MongoState
  vs : FaissState
  cmap : Dict (Memory × List ℚ)
  stored : List Memory

/-- The candidate map of `create_memory` (line 167): `temp_i ↦ (memory,
embedding)`. -/
def candidateMapOf (candidates : List (Memory × List ℚ)) : Dict (Memory × List ℚ) :=
  (candidates.enum.map (fun p => ("temp_" ++ toString p.1, p.2)))

/-- `create_memory` step 6 (lines 169–195): execute each operation whose
`candidate_id` resolves, re-stamp the candidate's `memory_id` on a
successful UPDATE with a truthy target, and accumulate successful ADD/UPDATE
candidates into `stored_memories`. -/
def executeOps : List MemOp → LoopState → LoopState
  | [], st => st
  | op :: rest, st =>
    match st.cmap.lookup op.candidate_id with
    | none => executeOps rest st
    | some (candidate_memory, embedding) =>
      let r := executeOperation op candidate_memory embedding st.ms st.vs
      let success := r.1
      let memAfter :=
        if success && op.operation == "UPDATE" && truthyTarget op.target_memory_id then
          { r.2.2.2 with memory_id := op.target_memory_id.getD "" }
        else r.2.2.2
      let stored' :=
        if success && (op.operation == "ADD" || op.operation == "UPDATE") then
          st.stored ++ [memAfter]
        else st.stored
      executeOps rest
        ⟨r.2.1, r.2.2.1, dictSet op.candidate_id (memAfter, embedding) st.cmap, stored'⟩

/-- Per-operation outcome record: the operation, whether its execution
succeeded, and the state of the candidate object afterwards. -/
structure OpOutcome where
  op : MemOp
  success : Bool
  memAfter : Memory
deriving DecidableEq, Repr

/-- Outcome trace of the step-6 loop: one record per operation whose
`candidate_id` resolves in the candidate map. -/
def opTrace : List MemOp → Dict (Memory × List ℚ) → MongoState → FaissState →
    List OpOutcome
  | [], _, _, _ => []
  | op :: rest, cmap, ms, vs =>
    match cmap.lookup op.candidate_id with
    | none => opTrace rest cmap ms vs
    | some (candidate_memory, embedding) =>
      let r := executeOperation op candidate_memory embedding ms vs
      let memAfter :=
        if r.1 && op.operation == "UPDATE" && truthyTarget op.target_memory_id then
          { r.2.2.2 with memory_id := op.target_memory_id.getD "" }
        else r.2.2.2
      ⟨op, r.1, memAfter⟩ ::
        opTrace rest (dictSet op.candidate_id (memAfter, embedding) cmap) r.2.1 r.2.2.1

/-! ### Retrieval pipeline (`src/core/api/retrieval_api.py`) -/

/-- The score map of `retrieve` step 5: a Python dict comprehension over the
search results, so a duplicated `vector_id` keeps the **last** score; ids
absent from the results score `0.0`. -/
def scoreMapOf (search_results : List SearchResult) (memory_id : String) : ℚ :=
  match search_results.reverse.find? (fun r => r.vector_id == memory_id) with
  | some r => r.score
  | none => 0

/-- `RetrievalAPI.retrieve`, from the query embedding on (step 1 turns the
query string into an embedding via the external embedding provider). -/
def retrieveModel (vs : FaissState) (ms : MongoState) (query_embedding : List ℚ)
    (top_k : Nat) (filter : Option Payload) : List Memory :=
  let search_results := faissSearch vs query_embedding top_k filter
  if search_results.isEmpty then []
  else
    let memory_ids := search_results.map (fun r => r.vector_id)
    let memories := mongoGetByIds memory_ids ms
    (insSortDesc (fun m => scoreMapOf search_results m.memory_id) memories).take top_k

/-! ### Claims -/

/-- Claim C2: `create_memory` (memory_store.py lines 99–103) passes
`(recent_messages, user_message, assistant_message)` positionally into
`extract_memory(user_message, assistant_message, recent_messages=None, …)`,
so the extractor's `user_message` parameter receives the turn history, its
`assistant_message` parameter receives the user message, and its
`recent_messages` parameter receives the assistant message — contradicting
the extractor contract. -/
theorem claim2_extractor_call_misbound :
    createMemoryExtractCall [("hi", "hello")] "I am vegetarian." "Got it." ≠
      contractExtractCall [("hi", "hello")] "I am vegetarian." "Got it." ∧
    (createMemoryExtractCall [("hi", "hello")] "I am vegetarian." "Got it.").user_message =
      PyVal.turns [("hi", "hello")] ∧
    (createMemoryExtractCall [("hi", "hello")] "I am vegetarian." "Got it.").assistant_message =
      PyVal.str "I am vegetarian." ∧
    (createMemoryExtractCall [("hi", "hello")] "I am vegetarian." "Got it.").recent_messages =
      PyVal.str "Got it." := by
  refine ⟨by decide, rfl, rfl, rfl⟩

/-- Claim C8: a vector whose length differs from the configured dimension
makes `insert` and `update` fail with the state unchanged, and makes `search`
return the empty list. -/
theorem claim8_dim_mismatch_rejected (s : FaissState) (vector_id : String)
    (v : List ℚ) (p : Payload) (pOpt : Option Payload) (k : Nat)
    (flt : Option Payload) (h : v.length ≠ s.dimension) :
    vsInsert s vector_id v p = (false, s) ∧
    vsUpdate s vector_id (some v) pOpt = (false, s) ∧
    faissSearch s v k flt = [] := by
  refine ⟨?_, ?_, ?_⟩
  · unfold vsInsert
    by_cases hid : (s.idToIndex.lookup vector_id).isSome
    · rw [if_pos hid]
    · rw [if_neg hid, if_pos h]
  · unfold vsUpdate
    by_cases hid : (s.idToIndex.lookup vector_id).isNone
    · rw [if_pos hid]
    · rw [if_neg hid]
      simp only [if_pos h]
  · unfold faissSearch
    rw [if_pos h]

/-- Concrete store for the C8 witness: an empty 2-dimensional L2 index. -/
def c8S : FaissState := FaissState.empty 2 IndexType.L2 (fun _ => 0)

/-- Witness for C8 at a length-1 vector against dimension 2. -/
theorem claim8_witness :
    ([(1 : ℚ)].length ≠ c8S.dimension) ∧
    (vsInsert c8S "x" [1] [] = (false, c8S) ∧
     vsUpdate c8S "x" (some [1]) none = (false, c8S) ∧
     faissSearch c8S [1] 3 none = []) :=
  ⟨by decide, claim8_dim_mismatch_rejected c8S "x" [1] [] none 3 none (by decide)⟩

/-- Concrete store for C9: a 1-dimensional IP index holding `"a" ↦ [3]`
(user `u1`), `"b" ↦ [2]` (user `u2`), `"c" ↦ [1]` (user `u1`). -/
def c9S : FaissState :=
  (vsInsert (vsInsert (vsInsert (FaissState.empty 1 IndexType.IP (fun _ => 0))
    "a" [3] [("user_id", JVal.str "u1")]).2
    "b" [2] [("user_id", JVal.str "u2")]).2
    "c" [1] [("user_id", JVal.str "u1")]).2

/-- The `{user_id: u1}` filter for C9. -/
def c9F : Payload := [("user_id", JVal.str "u1")]

/-- Claim C9: searching `c9S` for the top 2 matches of `[1]` under the
`u1` filter returns only one result, although two live stored entries
satisfy the filter — the raw index lookup retrieves only
`min(top_k, ntotal) = 2` slots before the payload filter drops `"b"`. -/
theorem claim9_filter_applied_after_raw_topk :
    (faissSearch c9S [1] 2 (some c9F)).map (fun r => r.vector_id) = ["a"] ∧
    (faissSearch c9S [1] 2 (some c9F)).length < 2 ∧
    (c9S.payloads.filter (fun p => matchesFilter p.2 c9F)).length = 2 ∧
    ((c9S.idToIndex.lookup "a").isSome ∧ (c9S.idToIndex.lookup "c").isSome) := by
  have hc : c9S = ⟨1, IndexType.IP, fun _ => 0, [[3], [2], [1]],
      [("c", [("user_id", JVal.str "u1")]), ("b", [("user_id", JVal.str "u2")]),
       ("a", [("user_id", JVal.str "u1")])],
      [("c", 2), ("b", 1), ("a", 0)], [(2, "c"), (1, "b"), (0, "a")], 3⟩ := rfl
  have hraw : rawTopK c9S [1] 2 = [(0, 3), (1, 2)] := by
    rw [hc]
    norm_num [rawTopK, ipQ, insSortDesc, insertDesc, List.range_succ]
  have hs : faissSearch c9S [1] 2 (some c9F) =
      [⟨"a", 3, [("user_id", JVal.str "u1")]⟩] := by
    rw [hc] at hraw ⊢
    have hne : ¬(IndexType.IP = IndexType.COSINE) := by decide
    simp only [faissSearch]
    norm_num [FaissState.useCosine, hne, hraw, scoreOf, insSortDesc, insertDesc,
      filterKeep, matchesFilter, c9F, List.lookup, List.filterMap]
    rfl
  refine ⟨by rw [hs]; rfl, by rw [hs]; decide, by decide, by decide, by decide⟩

/-- Claim C10: candidates are stamped whenever `user_id is not None`, but the
neighbor-search filter is built only when `user_id` is truthy; with the
empty-string user id every candidate is stamped with `""` while every
neighbor search runs unfiltered. -/
theorem claim10_stamp_notnone_filter_truthy (cands : List Memory) (u : String)
    (vs : FaissState) (embs : List (List ℚ)) (k : Nat) :
    ((stampCandidates cands (some u)).all (fun m => m.user_id == some u)) ∧
    stampCandidates cands none = cands ∧
    (searchFilterOf (some u) = none ↔ u = "") ∧
    searchFilterOf none = none ∧
    ((stampCandidates cands (some "")).all (fun m => m.user_id == some "")) ∧
    parallelVectorSearch vs embs k (searchFilterOf (some "")) =
      parallelVectorSearch vs embs k none := by
  refine ⟨?_, rfl, ?_, rfl, ?_, ?_⟩
  · simp [stampCandidates, List.all_eq_true]
  · unfold searchFilterOf
    by_cases h : u = "" <;> simp [h]
  · simp [stampCandidates, List.all_eq_true]
  · rfl

/-- Concrete reconciler response for C1: a single `UPDATE` with a null
`target_memory_id`. -/
def c1Ops : List MemOp := [⟨"temp_0", "UPDATE", none, 1⟩]

/-- Claim C1, counterexample: the validation loop of
`determine_operations_batch` accepts the null-target `UPDATE` and returns it
unchanged — the validated operations list does contain an `UPDATE` whose
target is null, with no downgrade to NOOP (and no neighbor-set check exists
anywhere in the loop). -/
theorem claim1_counterexample :
    validateOps c1Ops = Except.ok c1Ops ∧
    (c1Ops.any (fun op =>
      (op.operation == "UPDATE" || op.operation == "DELETE") &&
        op.target_memory_id == none)) = true := by
  refine ⟨rfl, by decide⟩

/-- Claim C1, amended: validation never rewrites operations (success returns
the input list unchanged, null targets included), and the safety net sits in
`execute_operation` instead, which fails (returns `False`, leaving both
stores untouched) on any `UPDATE` or `DELETE` whose target is falsy. -/
theorem claim1_amended_no_noop_downgrade (ops l : List MemOp) (op : MemOp)
    (mem : Memory) (emb : List ℚ) (ms : MongoState) (vs : FaissState)
    (hok : validateOps ops = Except.ok l)
    (hop : op.operation = "UPDATE" ∨ op.operation = "DELETE")
    (hfalsy : truthyTarget op.target_memory_id = false) :
    l = ops ∧ executeOperation op mem emb ms vs = (false, ms, vs, mem) := by
  constructor
  · induction ops generalizing l with
    | nil => simpa [validateOps] using hok.symm
    | cons o rest ih =>
      rw [validateOps] at hok
      by_cases hbad : o.operation ≠ "ADD" ∧ o.operation ≠ "UPDATE" ∧
          o.operation ≠ "DELETE" ∧ o.operation ≠ "NOOP"
      · rw [if_pos hbad] at hok
        exact absurd hok (by simp)
      · rw [if_neg hbad] at hok
        cases hrest : validateOps rest with
        | error e => rw [hrest] at hok; exact absurd hok (by simp)
        | ok ops' =>
          rw [hrest] at hok
          have : o :: ops' = l := by simpa using hok
          have hops' : ops' = rest := ih ops' hrest
          rw [← this, hops']
  · rcases hop with h | h <;>
      simp [executeOperation, h, hfalsy]

/-- Witness for the amended C1 at the concrete null-target operations. -/
theorem claim1_witness :
    (validateOps c1Ops = Except.ok c1Ops ∧
      ((⟨"temp_0", "UPDATE", none, 1⟩ : MemOp).operation = "UPDATE" ∨
       (⟨"temp_0", "UPDATE", none, 1⟩ : MemOp).operation = "DELETE") ∧
      truthyTarget (⟨"temp_0", "UPDATE", none, 1⟩ : MemOp).target_memory_id = false) ∧
    (c1Ops = c1Ops ∧
      executeOperation ⟨"temp_0", "UPDATE", none, 1⟩
        ⟨"m", "conversation", "x", "fact", "t", none⟩ [] ⟨[]⟩
        (FaissState.empty 1 IndexType.IP (fun _ => 0)) =
        (false, ⟨[]⟩, FaissState.empty 1 IndexType.IP (fun _ => 0),
          ⟨"m", "conversation", "x", "fact", "t", none⟩)) :=
  ⟨⟨rfl, Or.inl rfl, by decide⟩,
    claim1_amended_no_noop_downgrade c1Ops c1Ops ⟨"temp_0", "UPDATE", none, 1⟩
      ⟨"m", "conversation", "x", "fact", "t", none⟩ [] ⟨[]⟩
      (FaissState.empty 1 IndexType.IP (fun _ => 0))
      rfl (Or.inl rfl) (by decide)⟩

theorem eraseFirstDoc_append_fresh (docs : List Memory) (m : Memory)
    (h : docs.all (fun d => d.memory_id != m.memory_id)) :
    eraseFirstDoc m.memory_id (docs ++ [m]) = docs := by
  induction docs with
  | nil => simp [eraseFirstDoc]
  | cons d ds ih =>
    simp only [List.all_cons, Bool.and_eq_true, bne_iff_ne, ne_eq] at h
    simp only [List.cons_append, eraseFirstDoc, beq_iff_eq]
    rw [if_neg h.1]
    rw [show ds.append [m] = ds ++ [m] from rfl, ih (by simpa using h.2)]

theorem mongoDelete_append_fresh (ms : MongoState) (m : Memory)
    (h : rowExists ms m.memory_id = false) :
    mongoDelete m.memory_id ⟨ms.docs ++ [m]⟩ = (true, ms) := by
  have hall : ms.docs.all (fun d => d.memory_id != m.memory_id) := by
    rw [rowExists] at h
    rw [List.all_eq_true]
    intro d hd
    have h2 : ∀ x ∈ ms.docs, ¬(x.memory_id = m.memory_id) := by
      simpa [List.any_eq_false] using h
    simpa using h2 d hd
  unfold mongoDelete
  rw [if_pos]
  · rw [eraseFirstDoc_append_fresh ms.docs m hall]
  · simp

/-- Claim C4: `_execute_add` writes the metadata row first and the vector
second; when the vector insert fails the fresh row is compensated away and
the op reports failure, so a failed ADD leaves no metadata row for the
candidate id; when the vector insert succeeds the row and the vector are
both in place. -/
theorem claim4_add_compensation (ms : MongoState) (vs : FaissState)
    (m : Memory) (emb : List ℚ)
    (hfresh : rowExists ms m.memory_id = false) :
    ((vsInsert vs m.memory_id emb (payloadOf m)).1 = false →
        executeAdd m emb ms vs = (false, ms, vs) ∧
        rowExists (executeAdd m emb ms vs).2.1 m.memory_id = false) ∧
    ((vsInsert vs m.memory_id emb (payloadOf m)).1 = true →
        executeAdd m emb ms vs =
          (true, ⟨ms.docs ++ [m]⟩, (vsInsert vs m.memory_id emb (payloadOf m)).2)) := by
  have hvs_of_false : (vsInsert vs m.memory_id emb (payloadOf m)).1 = false →
      (vsInsert vs m.memory_id emb (payloadOf m)).2 = vs := by
    intro hf
    unfold vsInsert at hf ⊢
    by_cases h1 : (vs.idToIndex.lookup m.memory_id).isSome
    · rw [if_pos h1]
    · rw [if_neg h1] at hf ⊢
      by_cases h2 : emb.length ≠ vs.dimension
      · rw [if_pos h2]
      · rw [if_neg h2] at hf
        exact absurd hf (by simp)
  constructor
  · intro hf
    have hins : executeAdd m emb ms vs = (false, ms, vs) := by
      unfold executeAdd
      simp only [mongoInsert, Bool.not_true, Bool.false_eq_true, if_false]
      rw [hf]
      simp only [Bool.not_false, if_true]
      rw [mongoDelete_append_fresh ms m hfresh, hvs_of_false hf]
    exact ⟨hins, by rw [hins]; exact hfresh⟩
  · intro ht
    unfold executeAdd
    simp only [mongoInsert, Bool.not_true, Bool.false_eq_true, if_false]
    rw [ht]
    simp

/-- Concrete inputs for the C4 witness: an empty metadata store and an empty
1-dimensional index, with an embedding of the wrong length so that the
vector insert fails. -/
def c4M : Memory := ⟨"m1", "conversation", "likes tea", "preference", "t", none⟩

/-- Witness for C4: the vector insert of the length-2 embedding fails against
dimension 1, and the failed ADD leaves the metadata store untouched. -/
theorem claim4_witness :
    rowExists ⟨[]⟩ c4M.memory_id = false ∧
    (executeAdd c4M [1, 2] ⟨[]⟩ (FaissState.empty 1 IndexType.IP (fun _ => 0)) =
      (false, ⟨[]⟩, FaissState.empty 1 IndexType.IP (fun _ => 0)) ∧
     rowExists (executeAdd c4M [1, 2] ⟨[]⟩
        (FaissState.empty 1 IndexType.IP (fun _ => 0))).2.1 c4M.memory_id = false) :=
  ⟨by decide,
    (claim4_add_compensation ⟨[]⟩ (FaissState.empty 1 IndexType.IP (fun _ => 0))
      c4M [1, 2] (by decide)).1 (by decide)⟩

theorem filterKeep_some_true {flt : Payload} {pl : Payload}
    (h : filterKeep (some flt) pl = true) :
    ∀ kv ∈ flt, kv.1 ≠ "type" → pl.lookup kv.1 = some kv.2 := by
  intro kv hkv hne
  simp only [filterKeep] at h
  by_cases hemp : flt.isEmpty
  · rw [List.isEmpty_iff.1 hemp] at hkv
    exact absurd hkv (List.not_mem_nil kv)
  · rw [if_neg (by simpa using hemp)] at h
    have hmemf : kv ∈ flt.filter (fun kv => kv.1 != "type") :=
      List.mem_filter.2 ⟨hkv, by simpa using hne⟩
    by_cases hfe : (flt.filter (fun kv => kv.1 != "type")).isEmpty
    · rw [List.isEmpty_iff.1 hfe] at hmemf
      exact absurd hmemf (List.not_mem_nil kv)
    · rw [if_neg (by simpa using hfe)] at h
      have := List.all_eq_true.1 h kv hmemf
      simpa using this

theorem filterKeep_strip (flt : Payload) :
    filterKeep (some flt) =
      filterKeep (some (flt.filter (fun kv => kv.1 != "type"))) := by
  funext pl
  simp only [filterKeep]
  by_cases hemp : flt.isEmpty
  · rw [List.isEmpty_iff.1 hemp]
    simp
  · rw [if_neg (by simpa using hemp)]
    have hff : (flt.filter (fun kv => kv.1 != "type")).filter
        (fun kv => kv.1 != "type") = flt.filter (fun kv => kv.1 != "type") := by
      rw [List.filter_filter]
      apply List.filter_congr
      intro a _
      simp [Bool.and_self]
    by_cases hfe : (flt.filter (fun kv => kv.1 != "type")).isEmpty
    · rw [if_pos (by simpa using hfe), if_pos (by simpa using hfe)]
    · rw [if_neg (by simpa using hfe), if_neg (by simpa using hfe), hff,
        if_neg (by simpa using hfe)]

/-- Claim C7: every search result's payload satisfies every equality
predicate of the filter other than the stripped `type` key, and stripping
`type` from the filter up front changes nothing — `type` never constrains
the results.  With a `user_id` entry in the filter this specializes to
user-scoped results. -/
theorem claim7_filter_equality_except_type (s : FaissState) (q : List ℚ)
    (k : Nat) (flt : Payload) :
    (∀ r ∈ faissSearch s q k (some flt), ∀ kv ∈ flt, kv.1 ≠ "type" →
        r.payload.lookup kv.1 = some kv.2) ∧
    faissSearch s q k (some flt) =
      faissSearch s q k (some (flt.filter (fun kv => kv.1 != "type"))) := by
  constructor
  · intro r hr kv hkv hne
    obtain ⟨di, _, hmap⟩ := mem_faissSearch hr
    obtain ⟨vid, _, hkeep, hre⟩ := searchHit_eq_some hmap
    rw [hre]
    exact filterKeep_some_true hkeep kv hkv hne
  · unfold faissSearch searchHit
    rw [filterKeep_strip flt]

/-- Concrete store for the C7 witness: one vector `"a" ↦ [2]` with user `u`
in a 1-dimensional IP index. -/
def c7S : FaissState :=
  (vsInsert (FaissState.empty 1 IndexType.IP (fun _ => 0))
    "a" [2] [("user_id", JVal.str "u")]).2

/-- The `{user_id: u}` filter for the C7 witness. -/
def c7F : Payload := [("user_id", JVal.str "u")]

/-- Witness for C7 at the one-vector store: the single result's payload
satisfies the `user_id` predicate of the filter. -/
theorem claim7_witness :
    (⟨"a", 2, [("user_id", JVal.str "u")]⟩ : SearchResult).payload.lookup "user_id" =
      some (JVal.str "u") := by
  have hc : c7S = ⟨1, IndexType.IP, fun _ => 0, [[2]],
      [("a", [("user_id", JVal.str "u")])], [("a", 0)], [(0, "a")], 1⟩ := rfl
  have hip : ipQ [1] [2] = 2 := by norm_num [ipQ]
  have hraw : rawTopK c7S [1] 1 = [(0, 2)] := by
    rw [hc]
    norm_num [rawTopK, hip, insSortDesc, insertDesc, List.range_succ]
  have hne : ¬(IndexType.IP = IndexType.COSINE) := by decide
  have hs : faissSearch c7S [1] 1 (some c7F) =
      [⟨"a", 2, [("user_id", JVal.str "u")]⟩] := by
    rw [hc] at hraw ⊢
    simp only [faissSearch]
    norm_num [FaissState.useCosine, hne, hraw, hip, searchHit, scoreOf, insSortDesc,
      insertDesc, filterKeep, matchesFilter, c7F, List.lookup, List.filterMap]
  exact (claim7_filter_equality_except_type c7S [1] 1 c7F).1
    ⟨"a", 2, [("user_id", JVal.str "u")]⟩ (by rw [hs]; exact List.mem_singleton.2 rfl)
    ("user_id", JVal.str "u") (by decide) (by decide)

theorem isPrefix_filter {α : Type} (p : α → Bool) {l₁ l₂ : List α}
    (h : l₁ <+: l₂) : l₁.filter p <+: l₂.filter p := by
  obtain ⟨t, rfl⟩ := h
  exact ⟨t.filter p, (List.filter_append l₁ t).symm⟩

/-- Claim C3, amended: `retrieve` returns at most `top_k` memories, ordered
by non-increasing vector-search score; memories with equal scores keep the
relative order in which the metadata backend hydrated them (Python's sort is
stable on the hydrated list), not the insertion order of the search-result
list. -/
theorem claim3_retrieve_sorted_hydration_stable (vs : FaissState)
    (ms : MongoState) (q : List ℚ) (top_k : Nat) (flt : Option Payload) :
    (retrieveModel vs ms q top_k flt).length ≤ top_k ∧
    (retrieveModel vs ms q top_k flt).Pairwise (fun a b =>
      scoreMapOf (faissSearch vs q top_k flt) b.memory_id ≤
        scoreMapOf (faissSearch vs q top_k flt) a.memory_id) ∧
    ∀ c : ℚ, (retrieveModel vs ms q top_k flt).filter
        (fun m => scoreMapOf (faissSearch vs q top_k flt) m.memory_id == c) <+:
      (mongoGetByIds ((faissSearch vs q top_k flt).map (fun r => r.vector_id)) ms).filter
        (fun m => scoreMapOf (faissSearch vs q top_k flt) m.memory_id == c) := by
  by_cases h : (faissSearch vs q top_k flt).isEmpty
  · have hr : retrieveModel vs ms q top_k flt = [] := by
      simp only [retrieveModel]
      rw [if_pos h]
    rw [hr]
    exact ⟨Nat.zero_le top_k, List.Pairwise.nil, fun c => List.nil_prefix⟩
  · have hr : retrieveModel vs ms q top_k flt =
        (insSortDesc (fun m => scoreMapOf (faissSearch vs q top_k flt) m.memory_id)
          (mongoGetByIds ((faissSearch vs q top_k flt).map (fun r => r.vector_id)) ms)).take
          top_k := by
      simp only [retrieveModel]
      rw [if_neg h]
    rw [hr]
    refine ⟨?_, ?_, ?_⟩
    · rw [List.length_take]
      exact min_le_left _ _
    · exact (pairwise_insSortDesc _ _).sublist (List.take_sublist _ _)
    · intro c
      calc ((insSortDesc _ _).take top_k).filter _
          <+: (insSortDesc (fun m => scoreMapOf (faissSearch vs q top_k flt) m.memory_id)
                (mongoGetByIds ((faissSearch vs q top_k flt).map (fun r => r.vector_id))
                  ms)).filter
                (fun m => scoreMapOf (faissSearch vs q top_k flt) m.memory_id == c) :=
            isPrefix_filter _ (List.take_prefix _ _)
        _ <+: _ := by
            rw [filter_insSortDesc]

/-- A square root usable on the unit-norm vectors of the C3 counterexample. -/
def c3Sqrt : ℚ → ℚ := fun x => if x = 1 then 1 else 0

/-- First memory of the C3 counterexample (vector id `"a"`). -/
def c3MemA : Memory := ⟨"a", "conversation", "likes tea", "preference", "t1", some "u"⟩

/-- Second memory of the C3 counterexample (vector id `"b"`). -/
def c3MemB : Memory := ⟨"b", "conversation", "likes coffee", "preference", "t2", some "u"⟩

/-- Unit vector stored for `"a"`. -/
def c3V1 : List ℚ := [-(3/5), 4/5]

/-- Unit vector stored for `"b"`. -/
def c3V2 : List ℚ := [-(4/5), 3/5]

/-- Cosine store of the C3 counterexample: `"a"` inserted before `"b"`. -/
def c3VS : FaissState :=
  (vsInsert (vsInsert (FaissState.empty 2 IndexType.COSINE c3Sqrt)
    "a" c3V1 (payloadOf c3MemA)).2
    "b" c3V2 (payloadOf c3MemB)).2

/-- Metadata collection of the C3 counterexample: `"b"` was inserted into the
collection before `"a"`, so hydration returns `b` first. -/
def c3MS : MongoState := ⟨[c3MemB, c3MemA]⟩

/-- Claim C3, counterexample: the search returns `a` before `b` with equal
(clamped-to-zero) scores, yet `retrieve` returns `b` before `a` — ties follow
the hydration order of the metadata backend, not the insertion order of the
vector-search result list. -/
theorem claim3_counterexample :
    (faissSearch c3VS [1, 0] 2 none).map (fun r => (r.vector_id, r.score)) =
      [("a", 0), ("b", 0)] ∧
    retrieveModel c3VS c3MS [1, 0] 2 none = [c3MemB, c3MemA] ∧
    c3MemA ≠ c3MemB := by
  have hn1 : normalizeVec c3Sqrt [-(3/5), 4/5] = [-(3/5), 4/5] := by
    norm_num [normalizeVec, normSq, c3Sqrt]
  have hn2 : normalizeVec c3Sqrt [-(4/5), 3/5] = [-(4/5), 3/5] := by
    norm_num [normalizeVec, normSq, c3Sqrt]
  have hq : normalizeVec c3Sqrt [1, 0] = [1, 0] := by
    norm_num [normalizeVec, normSq, c3Sqrt]
  have h1 : vsInsert (FaissState.empty 2 IndexType.COSINE c3Sqrt)
      "a" [-(3/5), 4/5] (payloadOf c3MemA) =
      (true, ⟨2, IndexType.COSINE, c3Sqrt, [[-(3/5), 4/5]],
        [("a", payloadOf c3MemA)], [("a", 0)], [(0, "a")], 1⟩) := by
    simp only [vsInsert, FaissState.empty, FaissState.useCosine]
    rw [hn1]
    rfl
  have h2 : vsInsert ⟨2, IndexType.COSINE, c3Sqrt, [[-(3/5), 4/5]],
        [("a", payloadOf c3MemA)], [("a", 0)], [(0, "a")], 1⟩
      "b" [-(4/5), 3/5] (payloadOf c3MemB) =
      (true, ⟨2, IndexType.COSINE, c3Sqrt, [[-(3/5), 4/5], [-(4/5), 3/5]],
        [("b", payloadOf c3MemB), ("a", payloadOf c3MemA)],
        [("b", 1), ("a", 0)], [(1, "b"), (0, "a")], 2⟩) := by
    simp only [vsInsert, FaissState.useCosine]
    rw [hn2]
    rfl
  have hc : c3VS = ⟨2, IndexType.COSINE, c3Sqrt, [[-(3/5), 4/5], [-(4/5), 3/5]],
      [("b", payloadOf c3MemB), ("a", payloadOf c3MemA)],
      [("b", 1), ("a", 0)], [(1, "b"), (0, "a")], 2⟩ := by
    simp only [c3VS, c3V1, c3V2]
    rw [h1]
    dsimp only
    rw [h2]
  have hip1 : ipQ [1, 0] [-(3/5), 4/5] = -(3/5) := by norm_num [ipQ]
  have hip2 : ipQ [1, 0] [-(4/5), 3/5] = -(4/5) := by norm_num [ipQ]
  have hraw : rawTopK c3VS [1, 0] 2 = [(0, -(3/5)), (1, -(4/5))] := by
    rw [hc]
    norm_num [rawTopK, hip1, hip2, insSortDesc, insertDesc, List.range_succ]
  have hsc1 : scoreOf IndexType.COSINE (-(3/5)) = 0 := by
    norm_num [scoreOf, max_def]
  have hsc2 : scoreOf IndexType.COSINE (-(4/5)) = 0 := by
    norm_num [scoreOf, max_def]
  have hs : faissSearch c3VS [1, 0] 2 none =
      [⟨"a", 0, payloadOf c3MemA⟩, ⟨"b", 0, payloadOf c3MemB⟩] := by
    rw [hc] at hraw ⊢
    simp only [faissSearch]
    norm_num [FaissState.useCosine, hq, hraw, hsc1, hsc2, searchHit,
      insSortDesc, insertDesc, filterKeep, List.lookup, List.filterMap]
    rfl
  refine ⟨by rw [hs]; rfl, ?_, by decide⟩
  have hmem : mongoGetByIds ["a", "b"] c3MS = [c3MemB, c3MemA] := by decide
  have hkeyA : scoreMapOf [⟨"a", 0, payloadOf c3MemA⟩, ⟨"b", 0, payloadOf c3MemB⟩]
      "a" = 0 := by rfl
  have hkeyB : scoreMapOf [⟨"a", 0, payloadOf c3MemA⟩, ⟨"b", 0, payloadOf c3MemB⟩]
      "b" = 0 := by rfl
  have hfin : insSortDesc (fun m => scoreMapOf
        [⟨"a", 0, payloadOf c3MemA⟩, ⟨"b", 0, payloadOf c3MemB⟩] m.memory_id)
      [c3MemB, c3MemA] = [c3MemB, c3MemA] := by
    have hle : scoreMapOf [⟨"a", 0, payloadOf c3MemA⟩, ⟨"b", 0, payloadOf c3MemB⟩]
        c3MemA.memory_id ≤ scoreMapOf
          [⟨"a", 0, payloadOf c3MemA⟩, ⟨"b", 0, payloadOf c3MemB⟩] c3MemB.memory_id := by
      have e1 : c3MemA.memory_id = "a" := rfl
      have e2 : c3MemB.memory_id = "b" := rfl
      rw [e1, e2, hkeyA, hkeyB]
    simp only [insSortDesc, insertDesc]
    rw [if_pos hle]
  have hmap : ([⟨"a", 0, payloadOf c3MemA⟩, ⟨"b", 0, payloadOf c3MemB⟩] :
      List SearchResult).map (fun r => r.vector_id) = ["a", "b"] := rfl
  simp only [retrieveModel, hs]
  rw [if_neg (by simp)]
  rw [hmap, hmem, hfin]
  rfl

theorem executeUpdate_candidate (nm : Memory) (emb : List ℚ) (t : String)
    (ms : MongoState) (vs : FaissState) :
    (executeUpdate nm emb t ms vs).2.2.2 = { nm with memory_id := t } := by
  unfold executeUpdate
  by_cases h : (mongoUpdate { nm with memory_id := t } ms).1
  · simp only [h, Bool.not_true, Bool.false_eq_true, if_false]
  · simp only [Bool.not_eq_true] at h
    simp only [h, Bool.not_false, if_true]

theorem executeOps_stored_eq (ops : List MemOp) (ms : MongoState)
    (vs : FaissState) (cmap : Dict (Memory × List ℚ)) (acc : List Memory) :
    (executeOps ops ⟨ms, vs, cmap, acc⟩).stored =
      acc ++ (opTrace ops cmap ms vs).filterMap (fun o =>
        if o.success && (o.op.operation == "ADD" || o.op.operation == "UPDATE")
        then some o.memAfter else none) := by
  induction ops generalizing ms vs cmap acc with
  | nil => simp [executeOps, opTrace]
  | cons op rest ih =>
    rw [executeOps, opTrace]
    cases hlk : cmap.lookup op.candidate_id with
    | none =>
      simpa using ih ms vs cmap acc
    | some ce =>
      dsimp only
      rw [ih]
      by_cases hcond : ((executeOperation op ce.1 ce.2 ms vs).1 &&
          (op.operation == "ADD" || op.operation == "UPDATE")) = true
      · rw [if_pos hcond]
        simp only [List.filterMap_cons, hcond, if_pos hcond]
        simp
      · rw [if_neg hcond]
        simp only [List.filterMap_cons]
        rw [if_neg hcond]

theorem opTrace_update_target (ops : List MemOp)
    (cmap : Dict (Memory × List ℚ)) (ms : MongoState) (vs : FaissState) :
    ∀ o ∈ opTrace ops cmap ms vs, o.op.operation = "UPDATE" → o.success = true →
      ∃ t, o.op.target_memory_id = some t ∧ t ≠ "" ∧ o.memAfter.memory_id = t := by
  induction ops generalizing cmap ms vs with
  | nil => intro o ho; exact absurd ho (by simp [opTrace])
  | cons op rest ih =>
    intro o ho hop hsucc
    rw [opTrace] at ho
    cases hlk : cmap.lookup op.candidate_id with
    | none =>
      rw [hlk] at ho
      exact ih _ _ _ o ho hop hsucc
    | some ce =>
      rw [hlk] at ho
      rcases List.mem_cons.1 ho with rfl | htail
      · dsimp only at hop hsucc ⊢
        cases htg : op.target_memory_id with
        | none =>
          have hexecf : executeOperation op ce.1 ce.2 ms vs = (false, ms, vs, ce.1) := by
            unfold executeOperation
            simp [hop, htg, truthyTarget]
          rw [hexecf] at hsucc
          simp at hsucc
        | some t =>
          by_cases ht : t = ""
          · have hexecf : executeOperation op ce.1 ce.2 ms vs = (false, ms, vs, ce.1) := by
              unfold executeOperation
              simp [hop, htg, ht, truthyTarget]
            rw [hexecf] at hsucc
            simp at hsucc
          · have htr : truthyTarget op.target_memory_id = true := by
              simp [truthyTarget, htg, ht]
            have hexec : executeOperation op ce.1 ce.2 ms vs =
                executeUpdate ce.1 ce.2 t ms vs := by
              unfold executeOperation
              simp [hop, htg, ht, truthyTarget]
            refine ⟨t, rfl, ht, ?_⟩
            rw [hexec] at hsucc ⊢
            simp [hop, htg, ht, truthyTarget, hsucc, executeUpdate_candidate]
      · exact ih _ _ _ o htail hop hsucc

/-- Claim C5: the `stored_memories` list of `create_memory` contains exactly
the candidates of operations that resolved in the candidate map, whose
operation was ADD or UPDATE and whose execution succeeded (NOOP and DELETE
outcomes and failures are dropped), and every candidate stored through an
UPDATE carries the (truthy) `target_memory_id` in place of its transient id.
-/
theorem claim5_stored_successful_add_update (ops : List MemOp)
    (cmap : Dict (Memory × List ℚ)) (ms : MongoState) (vs : FaissState) :
    ((executeOps ops ⟨ms, vs, cmap, []⟩).stored =
      (opTrace ops cmap ms vs).filterMap (fun o =>
        if o.success && (o.op.operation == "ADD" || o.op.operation == "UPDATE")
        then some o.memAfter else none)) ∧
    (∀ o ∈ opTrace ops cmap ms vs, o.op.operation = "UPDATE" → o.success = true →
      ∃ t, o.op.target_memory_id = some t ∧ t ≠ "" ∧ o.memAfter.memory_id = t) :=
  ⟨by simpa using executeOps_stored_eq ops ms vs cmap [],
    opTrace_update_target ops cmap ms vs⟩

/-- Candidate memory for the C5 witness (fresh transient id). -/
def c5Mem : Memory := ⟨"tmp", "conversation", "moved to Bangalore", "fact", "t3", some "u"⟩

/-- The existing target memory for the C5 witness. -/
def c5Target : Memory := ⟨"m1", "conversation", "lives in Delhi", "fact", "t0", some "u"⟩

/-- Metadata store holding the target row. -/
def c5MS : MongoState := ⟨[c5Target]⟩

/-- Vector store holding the target vector. -/
def c5VS : FaissState :=
  (vsInsert (FaissState.empty 1 IndexType.IP (fun _ => 0))
    "m1" [1] (payloadOf c5Target)).2

/-- Candidate map with one candidate `temp_0`. -/
def c5CMap : Dict (Memory × List ℚ) := candidateMapOf [(c5Mem, [2])]

/-- A single successful UPDATE operation targeting `m1`. -/
def c5Ops : List MemOp := [⟨"temp_0", "UPDATE", some "m1", 1⟩]

/-- The head outcome of the C5 witness trace: the candidate carries the
target id. -/
def c5Out : OpOutcome :=
  ⟨⟨"temp_0", "UPDATE", some "m1", 1⟩, true,
    ⟨"m1", "conversation", "moved to Bangalore", "fact", "t3", some "u"⟩⟩

/-- Witness for C5: on the concrete run, the stored list equals the
successful-ADD/UPDATE projection of the trace, and the traced UPDATE outcome
carries the target id `m1` in place of `tmp`. -/
theorem claim5_witness :
    ((executeOps c5Ops ⟨c5MS, c5VS, c5CMap, []⟩).stored =
      (opTrace c5Ops c5CMap c5MS c5VS).filterMap (fun o =>
        if o.success && (o.op.operation == "ADD" || o.op.operation == "UPDATE")
        then some o.memAfter else none)) ∧
    (∃ t, c5Out.op.target_memory_id = some t ∧ t ≠ "" ∧
      c5Out.memAfter.memory_id = t) :=
  ⟨(claim5_stored_successful_add_update c5Ops c5CMap c5MS c5VS).1,
    (claim5_stored_successful_add_update c5Ops c5CMap c5MS c5VS).2 c5Out
      (by decide) (by decide) (by decide)⟩

theorem mem_rawTopK {s : FaissState} {qa : List ℚ} {k : Nat} {di : Nat × ℚ}
    (h : di ∈ rawTopK s qa k) :
    di.1 < s.rawVectors.length ∧
    di.2 = (match s.indexType with
            | IndexType.L2 => sqDist qa (s.rawVectors.getD di.1 [])
            | _ => ipQ qa (s.rawVectors.getD di.1 [])) := by
  unfold rawTopK at h
  cases hty : s.indexType <;>
  · simp only [hty] at h ⊢
    have h' := List.mem_of_mem_take h
    rw [mem_insSortDesc] at h'
    obtain ⟨i, hi, hdi⟩ := List.mem_map.1 h'
    rw [List.mem_range] at hi
    subst hdi
    exact ⟨hi, rfl⟩

theorem vsDelete_rawVectors (s : FaissState) (vid : String) :
    (vsDelete s vid).2.rawVectors = s.rawVectors := by
  unfold vsDelete
  cases s.idToIndex.lookup vid <;> rfl

/-- A function behaving as the non-negative square root at the point `x`. -/
def GoodSqrt (f : ℚ → ℚ) (x : ℚ) : Prop := 0 ≤ f x ∧ f x * f x = x

theorem normSq_normalize {f : ℚ → ℚ} {v : List ℚ} (h : GoodSqrt f (normSq v)) :
    normSq (normalizeVec f v) ≤ 1 ∧
      (normSq v ≠ 0 → normSq (normalizeVec f v) = 1) := by
  obtain ⟨hpos, hsq⟩ := h
  unfold normalizeVec
  by_cases hz : f (normSq v) = 0
  · rw [if_pos hz]
    have h0 : normSq v = 0 := by rw [← hsq, hz, mul_zero]
    exact ⟨by rw [h0]; norm_num, fun hne => absurd h0 hne⟩
  · rw [if_neg hz]
    have hnv : normSq v ≠ 0 := by
      intro h0
      exact hz (mul_self_eq_zero.1 (by rw [hsq, h0]))
    rw [normSq_map_div, hsq, div_self hnv]
    exact ⟨le_refl 1, fun _ => rfl⟩

/-- Claim C6: with the COSINE metric, `insert` and vector-carrying `update`
store the `_normalize_vector` image of the input, normalization yields a
vector of squared norm ≤ 1 (and exactly 1 on nonzero input) whenever
`sqrtFn` is a genuine square root there, and every score `search` returns —
`max(0, ip)` over normalized data — lies in `[0, 1]`. -/
theorem claim6_cosine_normalization_and_score_bounds (s : FaissState)
    (vector_id : String) (v q : List ℚ) (p : Payload) (pOpt : Option Payload)
    (k : Nat) (flt : Option Payload) :
    (s.indexType = IndexType.COSINE →
      (s.idToIndex.lookup vector_id).isSome = false → v.length = s.dimension →
      (vsInsert s vector_id v p).2.rawVectors =
        s.rawVectors ++ [normalizeVec s.sqrtFn v]) ∧
    (s.indexType = IndexType.COSINE →
      (s.idToIndex.lookup vector_id).isSome = true → v.length = s.dimension →
      (vsUpdate s vector_id (some v) pOpt).2.rawVectors =
        s.rawVectors ++ [normalizeVec s.sqrtFn v]) ∧
    (GoodSqrt s.sqrtFn (normSq v) →
      normSq (normalizeVec s.sqrtFn v) ≤ 1 ∧
        (normSq v ≠ 0 → normSq (normalizeVec s.sqrtFn v) = 1)) ∧
    (s.indexType = IndexType.COSINE → (∀ w ∈ s.rawVectors, normSq w ≤ 1) →
      GoodSqrt s.sqrtFn (normSq q) →
      ∀ r ∈ faissSearch s q k flt, 0 ≤ r.score ∧ r.score ≤ 1) := by
  refine ⟨?_, ?_, fun h => normSq_normalize h, ?_⟩
  · intro hty hfresh hdim
    have huse : s.useCosine = true := by simp [FaissState.useCosine, hty]
    unfold vsInsert
    rw [if_neg (by simp [hfresh]), if_neg (by simp [hdim]), huse]
    simp
  · intro hty hsome hdim
    have huse : s.useCosine = true := by simp [FaissState.useCosine, hty]
    obtain ⟨pos, hpos⟩ := Option.isSome_iff_exists.1 hsome
    unfold vsUpdate
    rw [if_neg (by simp [hpos])]
    simp only [if_neg (by simp [hdim] : ¬v.length ≠ s.dimension), huse, if_true]
    have hraw := vsDelete_rawVectors s vector_id
    cases pOpt with
    | none => simp [hraw]
    | some pl =>
      dsimp only
      cases hplk : ((vsDelete s vector_id).2.payloads.lookup vector_id) <;>
        simp [hraw, dictSet, hplk]
  · intro hty hinv hgq r hr
    obtain ⟨di, hdi, hhit⟩ := mem_faissSearch hr
    obtain ⟨vid, _, _, hre⟩ := searchHit_eq_some hhit
    obtain ⟨hlt, hdv⟩ := mem_rawTopK hdi
    rw [hty] at hdv
    have huse : s.useCosine = true := by simp [FaissState.useCosine, hty]
    rw [if_pos huse] at hdv
    have hw : s.rawVectors.getD di.1 [] ∈ s.rawVectors := by
      rw [List.getD_eq_getElem?_getD, List.getElem?_eq_getElem hlt]
      exact List.getElem_mem _
    have hwle : normSq (s.rawVectors.getD di.1 []) ≤ 1 := hinv _ hw
    have hq1 : normSq (normalizeVec s.sqrtFn q) ≤ 1 := (normSq_normalize hgq).1
    have hcs := ipQ_sq_le (normalizeVec s.sqrtFn q) (s.rawVectors.getD di.1 [])
    have hip2 : (ipQ (normalizeVec s.sqrtFn q) (s.rawVectors.getD di.1 [])) ^ 2 ≤ 1 :=
      le_trans hcs
        (mul_le_one₀ hq1 (normSq_nonneg _) hwle)
    have hiple : ipQ (normalizeVec s.sqrtFn q) (s.rawVectors.getD di.1 []) ≤ 1 := by
      nlinarith [hip2]
    rw [hre]
    dsimp only
    rw [hty]
    unfold scoreOf
    constructor
    · exact le_max_left 0 _
    · exact max_le (by norm_num) (by rw [hdv]; exact hiple)

/-- Square root valid at 1, used by the C6 witness store. -/
def c6Sqrt : ℚ → ℚ := fun x => if x = 1 then 1 else 0

/-- Cosine store of the C6 witness: one unit vector under id `"a"`. -/
def c6VS : FaissState :=
  (vsInsert (FaissState.empty 2 IndexType.COSINE c6Sqrt)
    "a" [3/5, 4/5] [("user_id", JVal.str "u")]).2

/-- Witness for C6 at the concrete cosine store: the square-root hypotheses
hold at the vectors used, normalization keeps the squared norm within 1, and
the returned score `3/5` lies in `[0, 1]`. -/
theorem claim6_witness :
    (GoodSqrt c6Sqrt (normSq [(3 : ℚ)/5, 4/5]) ∧ GoodSqrt c6Sqrt (normSq [(1 : ℚ), 0])) ∧
    normSq (normalizeVec c6Sqrt [(3 : ℚ)/5, 4/5]) ≤ 1 ∧
    (0 ≤ (⟨"a", 3/5, [("user_id", JVal.str "u")]⟩ : SearchResult).score ∧
      (⟨"a", 3/5, [("user_id", JVal.str "u")]⟩ : SearchResult).score ≤ 1) := by
  have hgv : GoodSqrt c6Sqrt (normSq [(3 : ℚ)/5, 4/5]) := by
    constructor <;> norm_num [c6Sqrt, normSq]
  have hgq : GoodSqrt c6Sqrt (normSq [(1 : ℚ), 0]) := by
    constructor <;> norm_num [c6Sqrt, normSq]
  have hn : normalizeVec c6Sqrt [3/5, 4/5] = [3/5, 4/5] := by
    norm_num [normalizeVec, normSq, c6Sqrt]
  have hq : normalizeVec c6Sqrt [1, 0] = [1, 0] := by
    norm_num [normalizeVec, normSq, c6Sqrt]
  have hc : c6VS = ⟨2, IndexType.COSINE, c6Sqrt, [[3/5, 4/5]],
      [("a", [("user_id", JVal.str "u")])], [("a", 0)], [(0, "a")], 1⟩ := by
    simp only [c6VS, vsInsert, FaissState.empty, FaissState.useCosine]
    rw [hn]
    rfl
  have hinv : ∀ w ∈ c6VS.rawVectors, normSq w ≤ 1 := by
    rw [hc]
    intro w hw
    have hw' : w = [3/5, 4/5] := by simpa using hw
    rw [hw']
    norm_num [normSq]
  have hip : ipQ [1, 0] [(3 : ℚ)/5, 4/5] = 3/5 := by norm_num [ipQ]
  have hraw : rawTopK c6VS [1, 0] 1 = [(0, 3/5)] := by
    rw [hc]
    norm_num [rawTopK, hip, insSortDesc, insertDesc, List.range_succ]
  have hsc : scoreOf IndexType.COSINE ((3 : ℚ)/5) = 3/5 := by
    norm_num [scoreOf, max_def]
  have hs : faissSearch c6VS [1, 0] 1 none =
      [⟨"a", 3/5, [("user_id", JVal.str "u")]⟩] := by
    rw [hc] at hraw ⊢
    simp only [faissSearch]
    norm_num [FaissState.useCosine, hq, hraw, hip, hsc, searchHit,
      insSortDesc, insertDesc, filterKeep, List.lookup, List.filterMap]
  refine ⟨⟨hgv, hgq⟩, ?_, ?_⟩
  · exact ((claim6_cosine_normalization_and_score_bounds c6VS "x" [3/5, 4/5]
      [1, 0] [] none 1 none).2.2.1 hgv).1
  · exact (claim6_cosine_normalization_and_score_bounds c6VS "x" [3/5, 4/5]
      [1, 0] [] none 1 none).2.2.2 rfl hinv hgq
      ⟨"a", 3/5, [("user_id", JVal.str "u")]⟩
      (by rw [hs]; exact List.mem_singleton.2 rfl)
